import Mathlib

/-!
Verification of the directory-listing crawler (directory-listing-tree.py).

The Python source is shallowly embedded below.  Network traffic and the two
external collaborators (urllib URL joining and datetime HTTP-date parsing)
are modelled as explicit Lean functions; the HTML parser collaborator is
modelled by presenting a fetched page as its parsed structure (title text
and table rows).  Python exceptions that the source can raise and does not
catch are modelled with `Except`.
-/

/-- Python exceptions that can propagate out of the embedded code paths:
`valueError` models the ValueError raised by formatting a non-float with
the `.3f` format code, `typeError` models the TypeError raised by
subscripting the `None` returned by `find` when a name cell has no anchor. -/
inductive PyError where
  | valueError
  | typeError
deriving DecidableEq

/-! ## List-of-characters helpers (models of Python str operations) -/

/-- Models Python str.split(sep) for a one-character separator: always
returns a non-empty list of (possibly empty) chunks. -/
def splitCh (c : Char) : List Char → List (List Char)
  | [] => [[]]
  | x :: xs =>
    match splitCh c xs with
    | s :: rest => if x = c then [] :: s :: rest else (x :: s) :: rest
    | [] => [[x]]

/-- Models the str.join used to reassemble a path from segments. -/
def joinCh (c : Char) : List (List Char) → List Char
  | [] => []
  | [s] => s
  | s :: rest => s ++ c :: joinCh c rest

/-- First list is a leading part of the second (character-wise). -/
def startsWithL : List Char → List Char → Bool
  | [], _ => true
  | _ :: _, [] => false
  | a :: as, b :: bs => a = b && startsWithL as bs

/-- The first list occurs contiguously somewhere inside the second; models
the Python `in` test on strings. -/
def containsSubL (needle : List Char) : List Char → Bool
  | [] => startsWithL needle []
  | c :: rest => startsWithL needle (c :: rest) || containsSubL needle rest

/-- Models the Python substring test `sub in s`. -/
def containsSub (s sub : String) : Bool := containsSubL sub.data s.data

/-- Models Python str.endswith for the one-character suffix "/": true iff
the final character is a slash (false on the empty string, as in Python). -/
def endsWithSlash (s : String) : Bool := s.data.getLast? = some '/'

/-! ## Model of urllib.parse.urljoin

Modelled from CPython `urllib.parse.urljoin`/`urlparse`/`urlunparse`,
restricted to hierarchical references without query or fragment splitting
(the listings modelled never carry "?" or "#" parts). -/

/-- Characters CPython allows inside a URL scheme. -/
def isSchemeChar (c : Char) : Bool :=
  c.isAlpha || c.isDigit || c = '+' || c = '-' || c = '.'

/-- Split a leading `scheme:` from a URL, as CPython urlparse does: the part
before the first colon must be non-empty, start with a letter and consist of
scheme characters. -/
def splitSchemeL (l : List Char) : Option (List Char × List Char) :=
  let pre := l.takeWhile (fun c => c ≠ ':')
  match l.dropWhile (fun c => c ≠ ':') with
  | [] => none
  | _ :: rest =>
    match pre with
    | [] => none
    | c :: _ =>
      if c.isAlpha && pre.all isSchemeChar then some (pre, rest) else none

/-- Scheme, network location and path of a URL (query and fragment are not
modelled). -/
structure UrlParts where
  scheme : List Char
  netloc : List Char
  path : List Char
deriving DecidableEq

/-- Models urlparse restricted to (scheme, netloc, path); the scheme is
lowercased as CPython does. -/
def urlsplitL (l : List Char) : UrlParts :=
  let p :=
    match splitSchemeL l with
    | some (s, r) => (s.map Char.toLower, r)
    | none => (([] : List Char), l)
  if startsWithL ['/', '/'] p.2 then
    let after := p.2.drop 2
    ⟨p.1, after.takeWhile (fun c => c ≠ '/'), after.dropWhile (fun c => c ≠ '/')⟩
  else
    ⟨p.1, [], p.2⟩

/-- Models urlunparse on (scheme, netloc, path). -/
def urlunsplitL (scheme netloc path : List Char) : List Char :=
  let u :=
    if netloc ≠ [] ∨ startsWithL ['/', '/'] path then
      let u₀ := if path ≠ [] ∧ path.head? ≠ some '/' then '/' :: path else path
      '/' :: '/' :: (netloc ++ u₀)
    else path
  if scheme ≠ [] then scheme ++ ':' :: u else u

/-- The dot-segment resolution loop of CPython urljoin: ".." pops the last
resolved segment (silently on an empty stack), "." is dropped, everything
else is pushed.  The accumulator holds the resolved segments reversed. -/
def rdsLoop : List (List Char) → List (List Char) → List (List Char)
  | acc, [] => acc.reverse
  | acc, seg :: rest =>
    if seg = ['.', '.'] then rdsLoop acc.tail rest
    else if seg = ['.'] then rdsLoop acc rest
    else rdsLoop (seg :: acc) rest

/-- Helper for `filterMiddle`: drops empty segments except the final one. -/
def filterMiddleTail : List (List Char) → List (List Char)
  | [] => []
  | [z] => [z]
  | s :: rest => if s = [] then filterMiddleTail rest else s :: filterMiddleTail rest

/-- CPython urljoin keeps the first and last of the merged segment list and
drops empty segments strictly in between (`segments[1:-1] = filter(None, ...)`). -/
def filterMiddle : List (List Char) → List (List Char)
  | [] => []
  | [a] => [a]
  | a :: rest => a :: filterMiddleTail rest

/-- Models urllib.parse.urljoin on character lists. -/
def urljoinL (base url : List Char) : List Char :=
  if base = [] then url
  else if url = [] then base
  else
    let b := urlsplitL base
    let r := urlsplitL url
    let rscheme := if r.scheme = [] then b.scheme else r.scheme
    if rscheme ≠ b.scheme then url
    else if r.netloc ≠ [] then urlunsplitL rscheme r.netloc r.path
    else if r.path = [] then urlunsplitL rscheme b.netloc b.path
    else
      let baseParts :=
        let bp := splitCh '/' b.path
        if bp.getLast? ≠ some [] then bp.dropLast else bp
      let segments :=
        if r.path.head? = some '/' then splitCh '/' r.path
        else filterMiddle (baseParts ++ splitCh '/' r.path)
      let res := rdsLoop [] segments
      let res :=
        if segments.getLast? = some ['.'] ∨ segments.getLast? = some ['.', '.'] then
          res ++ [[]]
        else res
      let path := match joinCh '/' res with
        | [] => ['/']
        | p => p
      urlunsplitL rscheme b.netloc path

/-- Models urllib.parse.urljoin on strings; used at lines 92 and 126 of the
source. -/
def urljoin (base url : String) : String := String.mk (urljoinL base.data url.data)

/-! ## Model of datetime.strptime for the fixed HTTP-date format

Modelled from CPython `datetime.strptime(s, "%a, %d %b %Y %H:%M:%S %Z")`
followed by `strftime("%Y.%m.%d")` (lines 57-58 of the source): a
case-insensitive match of the whole string against the format regex, then
calendar validation by the datetime constructor. -/

/-- Numeric value of a decimal digit character. -/
def digitVal (c : Char) : Nat := c.toNat - 48

/-- Case-insensitively consume a (lowercase) literal pattern. -/
def matchCI : List Char → List Char → Option (List Char)
  | [], rest => some rest
  | _ :: _, [] => none
  | p :: ps, c :: cs => if c.toLower = p then matchCI ps cs else none

/-- Try the given literal alternatives in order. -/
def matchOneOf : List (List Char) → List Char → Option (List Char)
  | [], _ => none
  | p :: ps, l =>
    match matchCI p l with
    | some r => some r
    | none => matchOneOf ps l

/-- Try literal alternatives paired with result values, in order. -/
def matchValued : List (List Char × Nat) → List Char → Option (Nat × List Char)
  | [], _ => none
  | (p, v) :: ps, l =>
    match matchCI p l with
    | some r => some (v, r)
    | none => matchValued ps l

/-- Abbreviated weekday names matched by the %a directive. -/
def weekdayNames : List (List Char) :=
  ["mon", "tue", "wed", "thu", "fri", "sat", "sun"].map String.data

/-- Abbreviated month names matched by the %b directive, with month numbers. -/
def monthNames : List (List Char × Nat) :=
  [("jan", 1), ("feb", 2), ("mar", 3), ("apr", 4), ("may", 5), ("jun", 6),
   ("jul", 7), ("aug", 8), ("sep", 9), ("oct", 10), ("nov", 11), ("dec", 12)].map
    (fun p => (p.1.data, p.2))

/-- Timezone names matched by the %Z directive.  CPython also accepts the
local timezone names from time.tzname, which are environment-dependent and
not modelled; "gmt" and "utc" are always accepted. -/
def tzNames : List (List Char) := ["gmt", "utc"].map String.data

/-- Python regex whitespace class. -/
def isPyWs (c : Char) : Bool :=
  c = ' ' || c = '\t' || c = '\n' || c = '\r' || c = '\x0b' || c = '\x0c'

/-- A literal whitespace in the strptime format matches one or more
whitespace characters. -/
def skipWs1 : List Char → Option (List Char)
  | [] => none
  | c :: rest => if isPyWs c then some (rest.dropWhile isPyWs) else none

/-- Consume one exact character. -/
def expectCh (c : Char) : List Char → Option (List Char)
  | [] => none
  | x :: rest => if x = c then some rest else none

/-- The %d directive: regex 3[01] or [12] digit or 0[1-9], else a single
digit [1-9]. -/
def parseDay : List Char → Option (Nat × List Char)
  | [] => none
  | c1 :: rest =>
    match rest with
    | c2 :: rest2 =>
      if c1.isDigit && c2.isDigit &&
          ((c1 = '3' && (c2 = '0' || c2 = '1')) || c1 = '1' || c1 = '2' ||
            (c1 = '0' && c2 ≠ '0')) then
        some (digitVal c1 * 10 + digitVal c2, rest2)
      else if c1.isDigit && c1 ≠ '0' then some (digitVal c1, rest)
      else none
    | [] => if c1.isDigit && c1 ≠ '0' then some (digitVal c1, []) else none

/-- The %H directive: regex 2[0-3] or [01] digit, else a single digit. -/
def parseHour : List Char → Option (Nat × List Char)
  | [] => none
  | c1 :: rest =>
    match rest with
    | c2 :: rest2 =>
      if c1.isDigit && c2.isDigit &&
          ((c1 = '2' && c2 ≤ '3') || c1 = '0' || c1 = '1') then
        some (digitVal c1 * 10 + digitVal c2, rest2)
      else if c1.isDigit then some (digitVal c1, rest)
      else none
    | [] => if c1.isDigit then some (digitVal c1, []) else none

/-- The %M directive: regex [0-5] digit, else a single digit. -/
def parseMin : List Char → Option (Nat × List Char)
  | [] => none
  | c1 :: rest =>
    match rest with
    | c2 :: rest2 =>
      if c1.isDigit && c2.isDigit && c1 ≤ '5' then
        some (digitVal c1 * 10 + digitVal c2, rest2)
      else if c1.isDigit then some (digitVal c1, rest)
      else none
    | [] => if c1.isDigit then some (digitVal c1, []) else none

/-- The %S directive: regex 6[01] or [0-5] digit, else a single digit. -/
def parseSec : List Char → Option (Nat × List Char)
  | [] => none
  | c1 :: rest =>
    match rest with
    | c2 :: rest2 =>
      if c1.isDigit && c2.isDigit && ((c1 = '6' && (c2 = '0' || c2 = '1')) || c1 ≤ '5') then
        some (digitVal c1 * 10 + digitVal c2, rest2)
      else if c1.isDigit then some (digitVal c1, rest)
      else none
    | [] => if c1.isDigit then some (digitVal c1, []) else none

/-- The %Y directive: exactly four digits. -/
def parseYear : List Char → Option (Nat × List Char)
  | a :: b :: c :: d :: rest =>
    if a.isDigit && b.isDigit && c.isDigit && d.isDigit then
      some (((digitVal a * 10 + digitVal b) * 10 + digitVal c) * 10 + digitVal d, rest)
    else none
  | _ => none

/-- Gregorian leap year, as validated by the datetime constructor. -/
def isLeap (y : Nat) : Bool := y % 4 = 0 && (y % 100 ≠ 0 || y % 400 = 0)

/-- Days in a month, as validated by the datetime constructor. -/
def daysInMonth (y m : Nat) : Nat :=
  if m = 2 then (if isLeap y then 29 else 28)
  else if m = 4 || m = 6 || m = 9 || m = 11 then 30
  else 31

/-- A calendar date recovered from a Last-Modified header. -/
structure HDate where
  year : Nat
  month : Nat
  day : Nat
deriving DecidableEq

/-- Day, month and year recovered by the first half of the format, with the
unconsumed remainder. -/
structure DMY where
  day : Nat
  month : Nat
  year : Nat
  rest : List Char
deriving DecidableEq

/-- First half of the format: weekday name, comma, day, month name, year. -/
def parseDMY (l : List Char) : Option DMY :=
  (matchOneOf weekdayNames l).bind fun r =>
  (expectCh ',' r).bind fun r =>
  (skipWs1 r).bind fun r =>
  (parseDay r).bind fun dr =>
  (skipWs1 dr.2).bind fun r =>
  (matchValued monthNames r).bind fun mr =>
  (skipWs1 mr.2).bind fun r =>
  (parseYear r).bind fun yr =>
  some ⟨dr.1, mr.1, yr.1, yr.2⟩

/-- Second half of the format: time of day and timezone name; hour and
minute are range-checked by their directives, the seconds value is returned
for the stricter datetime check. -/
def parseHMSZ (l : List Char) : Option (Nat × List Char) :=
  (skipWs1 l).bind fun r =>
  (parseHour r).bind fun hr =>
  (expectCh ':' hr.2).bind fun r =>
  (parseMin r).bind fun mir =>
  (expectCh ':' mir.2).bind fun r =>
  (parseSec r).bind fun sr =>
  (skipWs1 sr.2).bind fun r =>
  (matchOneOf tzNames r).bind fun r =>
  some (sr.1, r)

/-- Parse the full HTTP-date format, requiring the match to consume the
whole string, then apply the calendar validation the datetime constructor
performs (year at least 1, day within the month, seconds below 60). -/
def parseHTTPDateL (l : List Char) : Option HDate :=
  (parseDMY l).bind fun p =>
  (parseHMSZ p.rest).bind fun q =>
  if q.2 = [] ∧ 1 ≤ p.year ∧ q.1 ≤ 59 ∧ p.day ≤ daysInMonth p.year p.month then
    some ⟨p.year, p.month, p.day⟩
  else none

/-- String-level entry point of the HTTP-date model. -/
def parseHTTPDate (s : String) : Option HDate := parseHTTPDateL s.data

/-- Two-digit zero padding, as in strftime %m and %d. -/
def pad2 (n : Nat) : String := if n < 10 then "0" ++ toString n else toString n

/-- Four-digit zero padding, as in strftime %Y. -/
def pad4 (n : Nat) : String :=
  if n < 10 then "000" ++ toString n
  else if n < 100 then "00" ++ toString n
  else if n < 1000 then "0" ++ toString n
  else toString n

/-- Models strftime("%Y.%m.%d") at line 58 of the source. -/
def formatYMD (d : HDate) : String :=
  pad4 d.year ++ "." ++ pad2 d.month ++ "." ++ pad2 d.day

/-! ## Fixed-point formatting of the size

Models the `.3f` format applied to `file_size_bytes / (1024 * 1024)`.  The
Python value is an IEEE double; since every Content-Length below 2^53
divided by 2^20 is exactly representable, formatting the exact rational
with round-half-even agrees with Python for all realistic header values. -/

/-- Round a rational to the nearest integer, ties to even. -/
def roundHalfEven (x : ℚ) : Int :=
  let f := x.floor
  let r := x - f
  if r < 1 / 2 then f
  else if 1 / 2 < r then f + 1
  else if f % 2 = 0 then f else f + 1

/-- Three-digit zero padding for the fractional part. -/
def pad3 (n : Nat) : String :=
  if n < 10 then "00" ++ toString n
  else if n < 100 then "0" ++ toString n
  else toString n

/-- Models format(x, ".3f") on the exact rational value. -/
def fmt3f (q : ℚ) : String :=
  let n := roundHalfEven (q * 1000)
  let sign := if n < 0 then "-" else ""
  let m := n.natAbs
  sign ++ toString (m / 1000) ++ "." ++ pad3 (m % 1000)

/-! ## Data model of pages, responses and the network -/

/-- The size half of the pair returned by get_file_info: either the float
megabyte count or the string sentinel returned on a request failure. -/
inductive SizeVal where
  | na
  | mb (q : ℚ)
deriving DecidableEq

/-- One td cell of a listing row, as the HTML parser collaborator presents
it: the stripped visible text, and the href of the embedded anchor when one
exists. -/
structure Cell where
  text : String
  href : Option String
deriving DecidableEq

/-- One tr row: its td cells. -/
structure Row where
  cells : List Cell
deriving DecidableEq

/-- A fetched and parsed page: the text of its title element when present,
and its table rows. -/
structure Page where
  title : Option String
  rows : List Row
deriving DecidableEq

/-- The response headers read by get_file_info.  Content-Length is
modelled as the numeric header value. -/
structure HeadResponse where
  contentLength : Option Nat
  lastModified : Option String
deriving DecidableEq

/-- The network as the program observes it: fetching a URL as a page
(requests.get, raise_for_status, BeautifulSoup at lines 115-117) and
fetching a URL for its headers (requests.get at line 48).  `none` models a
requests.exceptions.RequestException (timeout, connection error, or a
non-2xx status raising via raise_for_status). -/
structure Net where
  fetchPage : String → Option Page
  fetchHead : String → Option HeadResponse

/-- One entry of `items` in fetch_directory_listing: the Python tuple
(is_dir, name, details). -/
structure Item where
  isDir : Bool
  name : String
  details : String
deriving DecidableEq

/-- One collected CSV row: [name, full_url, size string, last modified]. -/
structure CsvRow where
  filename : String
  url : String
  sizeMB : String
  lastModified : String
deriving DecidableEq

/-- One line printed to the console: a directory name, a file line with its
details, or the skip notice for a page that is not a listing. -/
inductive Line where
  | dirLine (indent name : String)
  | fileLine (indent name details : String)
  | skipNotice (indent url : String)
deriving DecidableEq

/-! ## The embedded program -/

/-- Source lines 41-43: determine if the URL points to a directory based on
its ending with a slash. -/
def is_directory (url : String) : Bool := endsWithSlash url

/-- Source lines 45-68: retrieve file size and last-modified date for one
file URL.  A request-level failure is caught and gives the sentinel pair;
on success the size is Content-Length (default 0) divided by 1024 * 1024,
and the date falls back to "Not Available" (header absent) or
"Unknown Date" (header unparsable). -/
def get_file_info (net : Net) (file_url : String) : SizeVal × String :=
  match net.fetchHead file_url with
  | none => (SizeVal.na, "N/A")
  | some response =>
    let file_size_bytes : Nat := response.contentLength.getD 0
    let file_size_mb : ℚ := (file_size_bytes : ℚ) / (1024 * 1024)
    let formatted_last_modified : String :=
      match response.lastModified with
      | none => "Not Available"
      | some last_modified =>
        match parseHTTPDate last_modified with
        | none => "Unknown Date"
        | some d => formatYMD d
    (SizeVal.mb file_size_mb, formatted_last_modified)

/-- The f-string interpolation of the size with format code .3f (lines 97
and 100): a float formats normally, the string sentinel raises ValueError
(unknown format code f for an object of type str). -/
def formatSizeF3 : SizeVal → Except PyError String
  | SizeVal.na => Except.error PyError.valueError
  | SizeVal.mb q => Except.ok (fmt3f q)

/-- Source lines 84-103, the body of the row loop for one row: rows with at
most 3 cells are ignored; a "Parent Directory" name is skipped; a name cell
without an anchor raises TypeError at `cols[1].find("a")["href"]`; otherwise
the entry is classified by is_directory on the href resolved against the
page URL and turned into an item (and a CSV row for files when collection
is on). -/
def processRow (net : Net) (url : String) (collect_csv : Bool) (row : Row) :
    Except PyError (List Item × List CsvRow) :=
  let cols := row.cells
  if h : 3 < cols.length then
    let name := (cols.get ⟨1, by omega⟩).text
    if name = "Parent Directory" then Except.ok ([], [])
    else
      match (cols.get ⟨1, by omega⟩).href with
      | none => Except.error PyError.typeError
      | some href =>
        let full_url := urljoin url href
        let last_modified := (cols.get ⟨2, by omega⟩).text
        if !is_directory full_url then
          let info := get_file_info net full_url
          match formatSizeF3 info.1 with
          | Except.error e => Except.error e
          | Except.ok sizeStr =>
            let details := "Size: " ++ sizeStr ++ " MB, Last Modified: " ++ info.2
            Except.ok ([⟨false, name, details⟩],
              if collect_csv then [⟨name, full_url, sizeStr, info.2⟩] else [])
        else
          Except.ok ([⟨true, name, "Last Modified: " ++ last_modified⟩], [])
  else Except.ok ([], [])

/-- The row loop of fetch_directory_listing over a list of rows, appending
the items and CSV rows each row contributes; an uncaught exception from any
row aborts the whole loop (the except clause at line 105 only catches
RequestException, which nothing in the loop raises). -/
def extractRows (net : Net) (url : String) (collect_csv : Bool) :
    List Row → Except PyError (List Item × List CsvRow)
  | [] => Except.ok ([], [])
  | row :: rest =>
    match processRow net url collect_csv row with
    | Except.error e => Except.error e
    | Except.ok rowRes =>
      match extractRows net url collect_csv rest with
      | Except.error e => Except.error e
      | Except.ok restRes => Except.ok (rowRes.1 ++ restRes.1, rowRes.2 ++ restRes.2)

/-- Source lines 77-108: process the directory listing rows of an already
parsed page, skipping the first two rows (`rows[2:]`). -/
def fetch_directory_listing (net : Net) (url : String) (soup : Page)
    (collect_csv : Bool) : Except PyError (List Item × List CsvRow) :=
  extractRows net url collect_csv (soup.rows.drop 2)

/-- The sort key comparison from line 121, `key=lambda x: (not x[0], x[1])`:
lexicographic on the pair of negated directory flag (False before True) and
name (code-point string order). -/
def itemLe (x y : Item) : Bool :=
  (x.isDir && !y.isDir) || ((x.isDir == y.isDir) && decide (x.name ≤ y.name))

/-- The comparison as a decidable relation. -/
abbrev itemRel (x y : Item) : Prop := itemLe x y = true

/-- Line 121, `items.sort(...)`: Python list.sort is a stable sort by the
key.  A stable sort with respect to a total transitive comparison has a
unique result, and insertion sort inserting each element before the first
later element not below it computes exactly that stable result. -/
def sortItems (items : List Item) : List Item := items.insertionSort itemRel

/-- Line 119: the page is treated as a listing iff it has a title element
whose text contains the substring "Index of". -/
def pageIsListing (soup : Page) : Bool :=
  match soup.title with
  | none => false
  | some t => containsSub t "Index of"

/-- Source lines 123-132, the item loop of print_directory_listing:
directories print their line and recurse into urljoin(url, name + "/"),
extending the CSV accumulator with the recursive result; files print their
details line.  `recurse` is the recursive call at the next depth. -/
def renderItems (recurse : String → Except PyError (List Line × List CsvRow))
    (url indent : String) : List Item → Except PyError (List Line × List CsvRow)
  | [] => Except.ok ([], [])
  | item :: rest =>
    if item.isDir then
      let next_url := urljoin url (item.name ++ "/")
      match recurse next_url with
      | Except.error e => Except.error e
      | Except.ok child =>
        match renderItems recurse url indent rest with
        | Except.error e => Except.error e
        | Except.ok restRes =>
          Except.ok (Line.dirLine indent item.name :: (child.1 ++ restRes.1),
            child.2 ++ restRes.2)
    else
      match renderItems recurse url indent rest with
      | Except.error e => Except.error e
      | Except.ok restRes =>
        Except.ok (Line.fileLine indent item.name item.details :: restRes.1, restRes.2)

/-- Source lines 110-139: fetch a URL, check the listing title, extract and
sort the entries, print them, recurse into directories, and return the CSV
rows.  A failed page fetch is caught at line 136 and yields the empty
result; exceptions other than RequestException propagate.  The fuel
argument bounds the recursion depth (the source has no cycle detection, so
on a cyclic server it recurses unboundedly; every claim below is about what
happens within the modelled depth). -/
def print_directory_listing (net : Net) :
    Nat → String → String → Bool → Except PyError (List Line × List CsvRow)
  | 0, _, _, _ => Except.ok ([], [])
  | fuel + 1, url, indent, collect_csv =>
    match net.fetchPage url with
    | none => Except.ok ([], [])
    | some soup =>
      if pageIsListing soup then
        match fetch_directory_listing net url soup collect_csv with
        | Except.error e => Except.error e
        | Except.ok res =>
          match renderItems
              (fun next_url =>
                print_directory_listing net fuel next_url (indent ++ "    ") collect_csv)
              url indent (sortItems res.1) with
          | Except.error e => Except.error e
          | Except.ok rendered => Except.ok (rendered.1, rendered.2 ++ res.2)
      else Except.ok ([Line.skipNotice indent url], [])

/-- The name a printed line shows, when it shows one (skip notices name no
entry). -/
def lineName : Line → Option String
  | Line.dirLine _ name => some name
  | Line.fileLine _ name _ => some name
  | Line.skipNotice _ _ => none

/-- Modelled from the spec: classify file-vs-directory by inspecting the
resolved URL final path segment for the presence of a period character (a
period in the last path component means file, absence means directory).
Stated for comparison with the `is_directory` of the source. -/
def is_directory_spec (url : String) : Bool :=
  !(((splitCh '/' url.data).getLastD []).contains '.')

/-! ## Concrete fixtures used by counterexamples and witnesses -/

namespace Fx

/-- An empty header row, as in the two static rows of a listing table. -/
def hdrRow : Row := ⟨[]⟩

/-- A data row in the known listing format: icon cell, name cell with the
anchor, last-modified cell, size cell. -/
def dataRow (name href lm : String) : Row :=
  ⟨[⟨"", none⟩, ⟨name, some href⟩, ⟨lm, none⟩, ⟨"-", none⟩]⟩

/-- A listing page with one file entry a.txt. -/
def c1page : Page :=
  ⟨some "Index of /files/", [hdrRow, hdrRow, dataRow "a.txt" "a.txt" "2023-01-01 10:00"]⟩

/-- A network where the listing page loads but every metadata fetch fails
with a RequestException. -/
def c1net : Net :=
  { fetchPage := fun u => if u = "http://h/files/" then some c1page else none,
    fetchHead := fun _ => none }

/-- A listing page with a four-cell data row whose name cell contains no
anchor. -/
def c2page : Page :=
  ⟨some "Index of /x/", [hdrRow, hdrRow, ⟨[⟨"", none⟩, ⟨"weird", none⟩, ⟨"-", none⟩, ⟨"-", none⟩]⟩]⟩

/-- A network serving the anchorless-row listing. -/
def c2net : Net :=
  { fetchPage := fun u => if u = "http://h/x/" then some c2page else none,
    fetchHead := fun _ => none }

/-- A network where every page fetch fails with a RequestException. -/
def noFetchNet : Net :=
  { fetchPage := fun _ => none, fetchHead := fun _ => none }

/-- A listing whose single directory row has a display name "sub" but an
href resolving elsewhere ("/other/sub/"). -/
def c4root : Page :=
  ⟨some "Index of /a/", [hdrRow, hdrRow, dataRow "sub" "/other/sub/" "2023-01-02 10:00"]⟩

/-- A network serving the mismatched-href listing at http://h/a/ and a
non-listing page at the name-derived URL http://h/a/sub/; the href-resolved
URL http://h/other/sub/ is never requested. -/
def c4net : Net :=
  { fetchPage := fun u =>
      if u = "http://h/a/" then some c4root
      else if u = "http://h/a/sub/" then some (⟨none, []⟩ : Page)
      else none,
    fetchHead := fun _ => none }

/-- A network answering one file URL with a well-formed Last-Modified
header and a 2 MiB Content-Length. -/
def c5net : Net :=
  { fetchPage := fun _ => none,
    fetchHead := fun u =>
      if u = "http://h/f.bin" then
        some ⟨some 2097152, some "Wed, 21 Dec 2023 10:00:00 GMT"⟩
      else none }

/-- A network where every URL serves a page with no title element. -/
def c7net : Net :=
  { fetchPage := fun _ => some (⟨none, []⟩ : Page), fetchHead := fun _ => none }

/-- A listing page consisting only of the two static header rows. -/
def twoRowPage : Page := ⟨some "Index of /", [hdrRow, hdrRow]⟩

/-- A row with fewer than four cells, as a horizontal-rule row presents. -/
def thinRow : Row := ⟨[⟨"x", none⟩]⟩

/-- A listing with a Parent Directory row before a directory row. -/
def c9page : Page :=
  ⟨some "Index of /a/", [hdrRow, hdrRow, dataRow "Parent Directory" "/" "-", dataRow "sub" "sub/" "2023-01-02 10:00"]⟩

/-- A network serving the Parent Directory listing; the subdirectory fetch
fails, so the traversal still succeeds without touching file metadata. -/
def c9net : Net :=
  { fetchPage := fun u => if u = "http://h/a/" then some c9page else none,
    fetchHead := fun _ => none }

end Fx

/-! ## Claims -/

/-- Claim C1: when the metadata fetch for a file URL fails at the request
level, the failure is indeed caught inside get_file_info and the sentinel
pair is returned; but the extractor then crashes interpolating the string
sentinel with the .3f format code, raising an uncaught ValueError that
aborts the row, the listing and the whole walk. -/
theorem c1_sentinel_format_crash :
    get_file_info Fx.c1net "http://h/files/a.txt" = (SizeVal.na, "N/A")
    ∧ fetch_directory_listing Fx.c1net "http://h/files/" Fx.c1page true =
        Except.error PyError.valueError
    ∧ print_directory_listing Fx.c1net 1 "http://h/files/" "" true =
        Except.error PyError.valueError :=
  ⟨rfl, rfl, rfl⟩

/-- Claim C2 counterexample: a listing whose single data row has a name
cell without an anchor makes the traversal raise an uncaught TypeError, so
an error does propagate out of the traversal and the run does not
complete. -/
theorem c2_anchorless_row_typeerror :
    print_directory_listing Fx.c2net 1 "http://h/x/" "" false =
      Except.error PyError.typeError :=
  rfl

/-- Claim C2 amended: request-level page-fetch failures never propagate: a
RequestException while fetching any URL is caught at that call and the
traversal contributes an empty result for that subtree. -/
theorem c2_request_failures_contained :
    ∀ fuel net url indent collect, net.fetchPage url = none →
      print_directory_listing net (fuel + 1) url indent collect = Except.ok ([], []) := by
  intro fuel net url indent collect hfetch
  simp [print_directory_listing, hfetch]

/-- Witness for the amended claim C2 at a concrete failing network. -/
theorem c2_request_failures_contained_witness :
    print_directory_listing Fx.noFetchNet 1 "http://h/files/" "" true = Except.ok ([], []) :=
  c2_request_failures_contained 0 Fx.noFetchNet "http://h/files/" "" true rfl

/-- Claim C7: a fetched page whose title lacks the substring "Index of"
(in particular any page with no title element, which is not an error)
produces exactly the one skip notice, an empty result and no recursion. -/
theorem c7_non_listing_skipped :
    (∀ fuel net url indent collect soup,
      net.fetchPage url = some soup → pageIsListing soup = false →
      print_directory_listing net (fuel + 1) url indent collect =
        Except.ok ([Line.skipNotice indent url], []))
    ∧ (∀ rows, pageIsListing ⟨none, rows⟩ = false) := by
  constructor
  · intro fuel net url indent collect soup hfetch hlist
    simp [print_directory_listing, hfetch, hlist]
  · intro rows
    rfl

/-- Witness for claim C7 at a concrete titleless page. -/
theorem c7_non_listing_skipped_witness :
    print_directory_listing Fx.c7net 1 "http://h/" "" true =
      Except.ok ([Line.skipNotice "" "http://h/"], []) :=
  c7_non_listing_skipped.1 0 Fx.c7net "http://h/" "" true ⟨none, []⟩ rfl rfl

/-- Claim C8: the extractor works on `rows[2:]` (skipping the two static
header rows), yields nothing when a page has fewer than three rows, and
silently ignores any remaining row with fewer than four cells. -/
theorem c8_header_rows_and_thin_rows :
    (∀ net url collect soup, soup.rows.length < 3 →
      fetch_directory_listing net url soup collect = Except.ok ([], []))
    ∧ (∀ net url collect soup,
      fetch_directory_listing net url soup collect =
        extractRows net url collect (soup.rows.drop 2))
    ∧ (∀ net url collect row rest, row.cells.length ≤ 3 →
      extractRows net url collect (row :: rest) = extractRows net url collect rest) := by
  refine ⟨?_, fun _ _ _ _ => rfl, ?_⟩
  · intro net url collect soup hlen
    have hdrop : soup.rows.drop 2 = [] := by
      apply List.drop_eq_nil_of_le
      omega
    simp [fetch_directory_listing, hdrop, extractRows]
  · intro net url collect row rest hlen
    have hpr : processRow net url collect row = Except.ok ([], []) := by
      unfold processRow
      rw [dif_neg (by omega)]
    cases h : extractRows net url collect rest with
    | error e => simp [extractRows, hpr, h]
    | ok r => simp [extractRows, hpr, h]

/-- Witness for claim C8: a two-row page yields nothing, and a thin row in
front of a concrete row list changes nothing. -/
theorem c8_header_rows_and_thin_rows_witness :
    fetch_directory_listing Fx.noFetchNet "http://h/" Fx.twoRowPage false = Except.ok ([], [])
    ∧ extractRows Fx.noFetchNet "http://h/" false [Fx.thinRow, Fx.hdrRow] =
        extractRows Fx.noFetchNet "http://h/" false [Fx.hdrRow] :=
  ⟨c8_header_rows_and_thin_rows.1 Fx.noFetchNet "http://h/" false Fx.twoRowPage (by decide),
   c8_header_rows_and_thin_rows.2.2 Fx.noFetchNet "http://h/" false Fx.thinRow [Fx.hdrRow]
     (by decide)⟩

/-- Claim C5: on a successful metadata fetch, the size is the
Content-Length value (default 0) divided by 1048576, and the date string is
"Not Available" without a Last-Modified header, "Unknown Date" when the
header does not parse as an HTTP-date, and the YYYY.MM.DD reformatting when
it does; in particular the documented example reformats as 2023.12.21. -/
theorem c5_metadata_fetcher :
    ∀ net url resp, net.fetchHead url = some resp →
      (get_file_info net url).1 = SizeVal.mb ((resp.contentLength.getD 0 : ℚ) / 1048576)
      ∧ (resp.lastModified = none → (get_file_info net url).2 = "Not Available")
      ∧ (∀ s, resp.lastModified = some s → parseHTTPDate s = none →
          (get_file_info net url).2 = "Unknown Date")
      ∧ (∀ s d, resp.lastModified = some s → parseHTTPDate s = some d →
          (get_file_info net url).2 = formatYMD d)
      ∧ parseHTTPDate "Wed, 21 Dec 2023 10:00:00 GMT" = some ⟨2023, 12, 21⟩
      ∧ formatYMD ⟨2023, 12, 21⟩ = "2023.12.21" := by
  intro net url resp hfetch
  refine ⟨?_, ?_, ?_, ?_, by decide, by decide⟩
  · simp [get_file_info, hfetch]
    norm_num
  · intro h
    simp [get_file_info, hfetch, h]
  · intro s hs hp
    simp [get_file_info, hfetch, hs, hp]
  · intro s d hs hp
    simp [get_file_info, hfetch, hs, hp]

/-- Witness for claim C5 at a concrete response: 2097152 bytes formats from
the exact rational as 2 MiB and the example header date reformats. -/
theorem c5_metadata_fetcher_witness :
    (get_file_info Fx.c5net "http://h/f.bin").1 =
      SizeVal.mb (((some 2097152 : Option Nat).getD 0 : ℚ) / 1048576)
    ∧ (get_file_info Fx.c5net "http://h/f.bin").2 = formatYMD ⟨2023, 12, 21⟩ :=
  ⟨(c5_metadata_fetcher Fx.c5net "http://h/f.bin"
      ⟨some 2097152, some "Wed, 21 Dec 2023 10:00:00 GMT"⟩ rfl).1,
   (c5_metadata_fetcher Fx.c5net "http://h/f.bin"
      ⟨some 2097152, some "Wed, 21 Dec 2023 10:00:00 GMT"⟩ rfl).2.2.2.1
      "Wed, 21 Dec 2023 10:00:00 GMT" ⟨2023, 12, 21⟩ rfl (by decide)⟩

/-- The sort comparison is transitive. -/
theorem itemLe_trans : ∀ a b c : Item, itemLe a b → itemLe b c → itemLe a c := by
  intro a b c hab hbc
  simp only [itemLe, Bool.or_eq_true, Bool.and_eq_true, Bool.not_eq_true', beq_iff_eq,
    decide_eq_true_eq] at *
  rcases hab with ⟨ha, hb⟩ | ⟨hab, hnab⟩
  · rcases hbc with ⟨hb2, _⟩ | ⟨hbc2, _⟩
    · exact absurd hb2 (by simp [hb])
    · exact Or.inl ⟨ha, hbc2 ▸ hb⟩
  · rcases hbc with ⟨hb2, hc⟩ | ⟨hbc2, hnbc⟩
    · exact Or.inl ⟨hab ▸ hb2, hc⟩
    · exact Or.inr ⟨hab.trans hbc2, le_trans hnab hnbc⟩

/-- The sort comparison is total. -/
theorem itemLe_total : ∀ a b : Item, itemLe a b || itemLe b a := by
  intro a b
  rcases le_total a.name b.name with h | h <;>
    cases ha : a.isDir <;> cases hb : b.isDir <;>
      simp [itemLe, ha, hb, h]

/-- Reading of the comparison: directories sort before files, names decide
within a group. -/
theorem itemLe_interp : ∀ x y : Item, itemLe x y →
    (x.isDir = true ∧ y.isDir = false) ∨ (x.isDir = y.isDir ∧ x.name ≤ y.name) := by
  intro x y h
  simpa only [itemLe, Bool.or_eq_true, Bool.and_eq_true, Bool.not_eq_true', beq_iff_eq,
    decide_eq_true_eq] using h

/-- Claim C6: the entry order used for printing and recursion is a
permutation of the extracted entries in which every directory precedes
every file and names are in non-decreasing code-point order inside each of
the two groups. -/
theorem c6_sorted_dirs_first :
    ∀ items : List Item,
      List.Perm (sortItems items) items
      ∧ (sortItems items).Pairwise
          (fun x y => (x.isDir = true ∧ y.isDir = false) ∨ (x.isDir = y.isDir ∧ x.name ≤ y.name)) := by
  intro items
  haveI : IsTotal Item itemRel :=
    ⟨fun a b => Bool.or_eq_true _ _ |>.mp (itemLe_total a b)⟩
  haveI : IsTrans Item itemRel := ⟨itemLe_trans⟩
  refine ⟨List.perm_insertionSort itemRel items, ?_⟩
  exact (List.sorted_insertionSort itemRel items).imp (itemLe_interp _ _)

/-- Claim C3 counterexample: the classification is not decided by a period
in the final path segment, and it does depend on the trailing slash: the
extension-less URL http://h/README is classified as a file by the code
although the period rule calls it a directory, and the same final segment
"sub" is classified both ways depending only on the trailing slash. -/
theorem c3_period_rule_refuted :
    is_directory "http://h/README" ≠ is_directory_spec "http://h/README"
    ∧ is_directory "http://h/sub" = false
    ∧ is_directory "http://h/sub/" = true := by
  decide

/-- Claim C3 amended: for every extracted entry the file-vs-directory
classification is decided by whether the href resolved against the page URL
ends with a slash (slash means directory, no slash means file); the final
path segment is not inspected for a period. -/
theorem c3_classification_by_trailing_slash :
    (∀ net url collect res c0 c1 c2 c3 rest href,
      c1.href = some href →
      processRow net url collect ⟨c0 :: c1 :: c2 :: c3 :: rest⟩ = Except.ok res →
      ∀ it ∈ res.1, it.isDir = is_directory (urljoin url href))
    ∧ is_directory "http://h/README" = false
    ∧ is_directory "http://h/v1.0/" = true := by
  refine ⟨?_, by decide, by decide⟩
  intro net url collect res c0 c1 c2 c3 rest href hhref hok it hit
  have hlen : 3 < (c0 :: c1 :: c2 :: c3 :: rest : List Cell).length := by
    simp
  unfold processRow at hok
  rw [dif_pos hlen] at hok
  simp only [List.get, hhref] at hok
  by_cases hpd : c1.text = "Parent Directory"
  · rw [if_pos hpd] at hok
    cases hok
    simp at hit
  · rw [if_neg hpd] at hok
    by_cases hdir : is_directory (urljoin url href)
    · simp only [hdir, Bool.not_true, Bool.false_eq_true, if_false] at hok
      cases hok
      simp at hit
      subst hit
      simp [hdir]
    · rw [Bool.not_eq_true] at hdir
      simp only [hdir, Bool.not_false, if_true] at hok
      cases hfo : formatSizeF3 (get_file_info net (urljoin url href)).1 with
      | error e => rw [hfo] at hok; cases hok
      | ok sizeStr =>
        rw [hfo] at hok
        cases hok
        simp at hit
        subst hit
        simp [hdir]

/-- Witness for the amended claim C3 at a concrete directory row. -/
theorem c3_classification_by_trailing_slash_witness :
    (Item.mk true "sub" "Last Modified: x").isDir = is_directory (urljoin "http://h/a/" "sub/") :=
  c3_classification_by_trailing_slash.1 Fx.noFetchNet "http://h/a/" false
    ([Item.mk true "sub" "Last Modified: x"], []) ⟨"", none⟩ ⟨"sub", some "sub/"⟩
    ⟨"x", none⟩ ⟨"-", none⟩ [] "sub/" rfl rfl
    (Item.mk true "sub" "Last Modified: x") (by simp)

theorem processRow_ok_shape :
    ∀ net url collect row res, processRow net url collect row = Except.ok res →
      (∀ it ∈ res.1, it.name ≠ "Parent Directory")
      ∧ (∀ r ∈ res.2, r.filename ≠ "Parent Directory")
      ∧ (collect = false → res.2 = []) := by
  intro net url collect row res hok
  simp only [processRow] at hok
  split at hok
  · split at hok
    · cases hok
      exact ⟨by simp, by simp, fun _ => rfl⟩
    · rename_i hpd
      split at hok
      · exact Except.noConfusion hok
      · split at hok
        · split at hok
          · exact Except.noConfusion hok
          · cases hok
            refine ⟨?_, ?_, ?_⟩
            · intro it hit
              simp at hit
              subst hit
              simpa using hpd
            · intro r hr
              split at hr
              · simp at hr
                subst hr
                simpa using hpd
              · simp at hr
            · intro hc
              subst hc
              simp
        · cases hok
          exact ⟨by intro it hit; simp at hit; subst hit; simpa using hpd, by simp, fun _ => rfl⟩
  · cases hok
    exact ⟨by simp, by simp, fun _ => rfl⟩

theorem extractRows_ok_shape :
    ∀ net url collect rows res, extractRows net url collect rows = Except.ok res →
      (∀ it ∈ res.1, it.name ≠ "Parent Directory")
      ∧ (∀ r ∈ res.2, r.filename ≠ "Parent Directory")
      ∧ (collect = false → res.2 = []) := by
  intro net url collect rows
  induction rows with
  | nil =>
    intro res hok
    cases hok
    exact ⟨by simp, by simp, fun _ => rfl⟩
  | cons row rest ih =>
    intro res hok
    simp only [extractRows] at hok
    split at hok
    · exact Except.noConfusion hok
    · rename_i rowRes hrow
      split at hok
      · exact Except.noConfusion hok
      · rename_i restRes hrest
        cases hok
        obtain ⟨h1, h2, h3⟩ := processRow_ok_shape net url collect row rowRes hrow
        obtain ⟨g1, g2, g3⟩ := ih restRes hrest
        refine ⟨?_, ?_, ?_⟩
        · intro it hit
          rcases List.mem_append.mp hit with h | h
          · exact h1 it h
          · exact g1 it h
        · intro r hr
          rcases List.mem_append.mp hr with h | h
          · exact h2 r h
          · exact g2 r h
        · intro hc
          simp [h3 hc, g3 hc]

theorem renderItems_no_parent :
    ∀ (recurse : String → Except PyError (List Line × List CsvRow)) url indent items res,
      (∀ u r, recurse u = Except.ok r →
        (∀ l ∈ r.1, lineName l ≠ some "Parent Directory")
        ∧ (∀ c ∈ r.2, c.filename ≠ "Parent Directory")) →
      (∀ it ∈ items, it.name ≠ "Parent Directory") →
      renderItems recurse url indent items = Except.ok res →
      (∀ l ∈ res.1, lineName l ≠ some "Parent Directory")
      ∧ (∀ c ∈ res.2, c.filename ≠ "Parent Directory") := by
  intro recurse url indent items
  induction items with
  | nil =>
    intro res hrec hitems hok
    cases hok
    exact ⟨by simp, by simp⟩
  | cons item rest ih =>
    intro res hrec hitems hok
    simp only [renderItems] at hok
    have hname : item.name ≠ "Parent Directory" := hitems item (by simp)
    have hrest : ∀ it ∈ rest, it.name ≠ "Parent Directory" :=
      fun it hit => hitems it (by simp [hit])
    split at hok
    · -- directory item
      split at hok
      · exact Except.noConfusion hok
      · rename_i child hchild
        split at hok
        · exact Except.noConfusion hok
        · rename_i restRes hrestOk
          cases hok
          obtain ⟨hcl, hcc⟩ := hrec _ child hchild
          obtain ⟨hrl, hrc⟩ := ih restRes hrec hrest hrestOk
          refine ⟨?_, ?_⟩
          · intro l hl
            rcases List.mem_cons.mp hl with rfl | hl
            · simpa [lineName] using hname
            · rcases List.mem_append.mp hl with h | h
              · exact hcl l h
              · exact hrl l h
          · intro c hc
            rcases List.mem_append.mp hc with h | h
            · exact hcc c h
            · exact hrc c h
    · -- file item
      split at hok
      · exact Except.noConfusion hok
      · rename_i restRes hrestOk
        cases hok
        obtain ⟨hrl, hrc⟩ := ih restRes hrec hrest hrestOk
        refine ⟨?_, ?_⟩
        · intro l hl
          rcases List.mem_cons.mp hl with rfl | hl
          · simpa [lineName] using hname
          · exact hrl l hl
        · exact hrc

theorem renderItems_csv_nil :
    ∀ (recurse : String → Except PyError (List Line × List CsvRow)) url indent items res,
      (∀ u r, recurse u = Except.ok r → r.2 = []) →
      renderItems recurse url indent items = Except.ok res → res.2 = [] := by
  intro recurse url indent items
  induction items with
  | nil =>
    intro res hrec hok
    cases hok
    rfl
  | cons item rest ih =>
    intro res hrec hok
    simp only [renderItems] at hok
    split at hok
    · split at hok
      · exact Except.noConfusion hok
      · rename_i child hchild
        split at hok
        · exact Except.noConfusion hok
        · rename_i restRes hrestOk
          cases hok
          simp [hrec _ child hchild, ih restRes hrec hrestOk]
    · split at hok
      · exact Except.noConfusion hok
      · rename_i restRes hrestOk
        cases hok
        exact ih restRes hrec hrestOk

theorem pdl_no_parent :
    ∀ (net : Net) fuel url indent collect res,
      print_directory_listing net fuel url indent collect = Except.ok res →
      (∀ l ∈ res.1, lineName l ≠ some "Parent Directory")
      ∧ (∀ c ∈ res.2, c.filename ≠ "Parent Directory") := by
  intro net fuel
  induction fuel with
  | zero =>
    intro url indent collect res hok
    cases hok
    exact ⟨by simp, by simp⟩
  | succ fuel ih =>
    intro url indent collect res hok
    simp only [print_directory_listing] at hok
    split at hok
    · cases hok
      exact ⟨by simp, by simp⟩
    · rename_i soup hsoup
      split at hok
      · split at hok
        · exact Except.noConfusion hok
        · rename_i fres hfdl
          split at hok
          · exact Except.noConfusion hok
          · rename_i rendered hrend
            cases hok
            obtain ⟨h1, h2, _⟩ :=
              extractRows_ok_shape net url collect (soup.rows.drop 2) fres hfdl
            have hsorted : ∀ it ∈ sortItems fres.1, it.name ≠ "Parent Directory" := by
              intro it hit
              exact h1 it ((List.perm_insertionSort itemRel fres.1).mem_iff.mp hit)
            obtain ⟨hl, hc⟩ := renderItems_no_parent _ url indent (sortItems fres.1) rendered
              (fun u r hr => ih u (indent ++ "    ") collect r hr) hsorted hrend
            refine ⟨hl, ?_⟩
            intro c hcm
            rcases List.mem_append.mp hcm with h | h
            · exact hc c h
            · exact h2 c h
      · cases hok
        refine ⟨?_, by simp⟩
        intro l hl
        rcases List.mem_cons.mp hl with rfl | hl
        · simp [lineName]
        · simp at hl

theorem pdl_csv_nil :
    ∀ (net : Net) fuel url indent res,
      print_directory_listing net fuel url indent false = Except.ok res → res.2 = [] := by
  intro net fuel
  induction fuel with
  | zero =>
    intro url indent res hok
    cases hok
    rfl
  | succ fuel ih =>
    intro url indent res hok
    simp only [print_directory_listing] at hok
    split at hok
    · cases hok
      rfl
    · rename_i soup hsoup
      split at hok
      · split at hok
        · exact Except.noConfusion hok
        · rename_i fres hfdl
          split at hok
          · exact Except.noConfusion hok
          · rename_i rendered hrend
            cases hok
            obtain ⟨_, _, h3⟩ :=
              extractRows_ok_shape net url false (soup.rows.drop 2) fres hfdl
            have hrc : rendered.2 = [] :=
              renderItems_csv_nil _ url indent (sortItems fres.1) rendered
                (fun u r hr => ih u (indent ++ "    ") r hr) hrend
            simp [hrc, h3 rfl]
      · cases hok
        rfl

/-- Claim C9: no entry named "Parent Directory" ever appears in the
extractor output (items or CSV rows), in the printed tree, or in the
collected CSV rows of the whole traversal. -/
theorem c9_no_parent_directory :
    (∀ net url collect soup res,
      fetch_directory_listing net url soup collect = Except.ok res →
      (∀ it ∈ res.1, it.name ≠ "Parent Directory")
      ∧ (∀ r ∈ res.2, r.filename ≠ "Parent Directory"))
    ∧ (∀ net fuel url indent collect res,
      print_directory_listing net fuel url indent collect = Except.ok res →
      (∀ l ∈ res.1, lineName l ≠ some "Parent Directory")
      ∧ (∀ r ∈ res.2, r.filename ≠ "Parent Directory")) := by
  constructor
  · intro net url collect soup res hok
    obtain ⟨h1, h2, _⟩ := extractRows_ok_shape net url collect (soup.rows.drop 2) res hok
    exact ⟨h1, h2⟩
  · intro net fuel url indent collect res hok
    exact pdl_no_parent net fuel url indent collect res hok

/-- Witness for claim C9 on a concrete traversal whose listing contains a
Parent Directory row: the one printed line is not named after it. -/
theorem c9_no_parent_directory_witness :
    lineName (Line.dirLine "" "sub") ≠ some "Parent Directory" :=
  (c9_no_parent_directory.2 Fx.c9net 2 "http://h/a/" "" true
    ([Line.dirLine "" "sub"], []) rfl).1 (Line.dirLine "" "sub") (by simp)

/-- Claim C10: with CSV collection disabled both the extractor and the
traversal return an empty CSV sequence, and the traversal returns a
(possibly empty) result rather than failing when the page fetch fails or
the page is not a listing. -/
theorem c10_csv_flag_and_totality :
    (∀ net url soup res,
      fetch_directory_listing net url soup false = Except.ok res → res.2 = [])
    ∧ (∀ net fuel url indent res,
      print_directory_listing net fuel url indent false = Except.ok res → res.2 = [])
    ∧ (∀ net fuel url indent collect, net.fetchPage url = none →
      print_directory_listing net (fuel + 1) url indent collect = Except.ok ([], []))
    ∧ (∀ net fuel url indent collect soup, net.fetchPage url = some soup →
      pageIsListing soup = false →
      ∃ lines, print_directory_listing net (fuel + 1) url indent collect =
        Except.ok (lines, [])) := by
  refine ⟨?_, ?_, ?_, ?_⟩
  · intro net url soup res hok
    exact (extractRows_ok_shape net url false (soup.rows.drop 2) res hok).2.2 rfl
  · exact pdl_csv_nil
  · intro net fuel url indent collect hfetch
    simp [print_directory_listing, hfetch]
  · intro net fuel url indent collect soup hfetch hlist
    exact ⟨[Line.skipNotice indent url], by simp [print_directory_listing, hfetch, hlist]⟩

/-- Witness for claim C10: a concrete traversal with the flag off yields an
empty CSV sequence, and a concrete failed fetch yields the empty result. -/
theorem c10_csv_flag_and_totality_witness :
    print_directory_listing Fx.c9net 2 "http://h/a/" "" false =
      Except.ok ([Line.dirLine "" "sub"], [])
    ∧ ([Line.dirLine "" "sub"], ([] : List CsvRow)).2 = []
    ∧ print_directory_listing Fx.noFetchNet 3 "http://h/z/" "" false = Except.ok ([], []) :=
  ⟨rfl,
   c10_csv_flag_and_totality.2.1 Fx.c9net 2 "http://h/a/" ""
     ([Line.dirLine "" "sub"], []) rfl,
   c10_csv_flag_and_totality.2.2.1 Fx.noFetchNet 2 "http://h/z/" "" false rfl⟩

theorem getLast?_cons_of_ne_nil {α : Type} {r : List α} (x : α) (h : r ≠ []) :
    (x :: r).getLast? = r.getLast? := by
  cases r with
  | nil => exact absurd rfl h
  | cons a l => exact List.getLast?_cons_cons

theorem getLast?_cons_keep {α : Type} {r : List α} {y : α} (x : α) (h : r.getLast? = some y) :
    (x :: r).getLast? = some y := by
  have hne : r ≠ [] := by
    intro hr
    rw [hr] at h
    exact Option.noConfusion h
  rw [getLast?_cons_of_ne_nil x hne, h]

theorem getLast?_append_keep {α : Type} {l₂ : List α} {y : α} (l₁ : List α)
    (h : l₂.getLast? = some y) : (l₁ ++ l₂).getLast? = some y := by
  have hne : l₂ ≠ [] := by
    intro hr
    rw [hr] at h
    exact Option.noConfusion h
  rw [List.getLast?_append_of_ne_nil l₁ hne, h]

theorem getLast?_append_back {α : Type} {l₁ l₂ : List α} {y : α}
    (h : (l₁ ++ l₂).getLast? = some y) (hne : l₂ ≠ []) : l₂.getLast? = some y := by
  rwa [List.getLast?_append_of_ne_nil l₁ hne] at h

theorem splitCh_ne_nil (c : Char) : ∀ l, splitCh c l ≠ [] := by
  intro l
  cases l with
  | nil => simp [splitCh]
  | cons x xs =>
    simp only [splitCh]
    cases h : splitCh c xs with
    | nil => simp
    | cons s rest =>
      dsimp only
      split <;> simp

theorem splitCh_eq_single_nil (c : Char) : ∀ l, splitCh c l = [[]] → l = [] := by
  intro l h
  cases l with
  | nil => rfl
  | cons x xs =>
    exfalso
    simp only [splitCh] at h
    cases hs : splitCh c xs with
    | nil => exact splitCh_ne_nil c xs hs
    | cons s rest =>
      rw [hs] at h
      dsimp only at h
      split at h <;> simp at h

theorem splitCh_cons_eq (c x : Char) (xs s : List Char) (rest : List (List Char))
    (hs : splitCh c xs = s :: rest) :
    splitCh c (x :: xs) = if x = c then [] :: s :: rest else (x :: s) :: rest := by
  simp only [splitCh, hs]

theorem splitCh_getLast_sep (c : Char) : ∀ l, l.getLast? = some c →
    (splitCh c l).getLast? = some [] := by
  intro l
  induction l with
  | nil => intro h; exact absurd h (by simp)
  | cons x xs ih =>
    intro h
    cases hxs : xs with
    | nil =>
      subst hxs
      simp only [List.getLast?_singleton, Option.some.injEq] at h
      subst h
      simp [splitCh]
    | cons y ys =>
      subst hxs
      rw [List.getLast?_cons_cons] at h
      have hlast := ih h
      cases hs : splitCh c (y :: ys) with
      | nil => exact absurd hs (splitCh_ne_nil c (y :: ys))
      | cons s rest =>
        rw [hs] at hlast
        rw [splitCh_cons_eq c x (y :: ys) s rest hs]
        split
        · exact getLast?_cons_keep [] hlast
        · cases hrest : rest with
          | nil =>
            subst hrest
            simp only [List.getLast?_singleton, Option.some.injEq] at hlast
            subst hlast
            exact absurd (splitCh_eq_single_nil c (y :: ys) hs) (by simp)
          | cons r rs =>
            subst hrest
            rw [List.getLast?_cons_cons] at hlast ⊢
            exact hlast

theorem filterMiddleTail_facts : ∀ l : List (List Char), l ≠ [] →
    filterMiddleTail l ≠ [] ∧ (filterMiddleTail l).getLast? = l.getLast? := by
  intro l
  induction l with
  | nil => intro h; exact absurd rfl h
  | cons s rest ih =>
    intro _
    cases hr : rest with
    | nil => simp [filterMiddleTail]
    | cons r rs =>
      subst hr
      obtain ⟨h1, h2⟩ := ih (by simp)
      simp only [filterMiddleTail]
      rw [List.getLast?_cons_cons]
      split
      · exact ⟨h1, h2⟩
      · refine ⟨by simp, ?_⟩
        rw [getLast?_cons_of_ne_nil s h1, h2]

theorem filterMiddle_getLast : ∀ l : List (List Char), l ≠ [] →
    (filterMiddle l).getLast? = l.getLast? := by
  intro l h
  cases l with
  | nil => exact absurd rfl h
  | cons a rest =>
    cases hr : rest with
    | nil => rfl
    | cons r rs =>
      obtain ⟨h1, h2⟩ := filterMiddleTail_facts (r :: rs) (by simp)
      show (filterMiddle (a :: r :: rs)).getLast? = _
      simp only [filterMiddle]
      rw [getLast?_cons_of_ne_nil a h1, h2, List.getLast?_cons_cons]

theorem rdsLoop_getLast_nilseg : ∀ (segs : List (List Char)) (acc : List (List Char)),
    segs.getLast? = some [] → (rdsLoop acc segs).getLast? = some [] := by
  intro segs
  induction segs with
  | nil => intro acc h; exact absurd h (by simp)
  | cons s rest ih =>
    intro acc h
    cases hr : rest with
    | nil =>
      subst hr
      simp only [List.getLast?_singleton, Option.some.injEq] at h
      subst h
      simp [rdsLoop]
    | cons r rs =>
      subst hr
      rw [List.getLast?_cons_cons] at h
      simp only [rdsLoop]
      split
      · exact ih _ h
      · split
        · exact ih _ h
        · exact ih _ h

theorem joinCh_getLast_nilseg : ∀ res : List (List Char), res.getLast? = some [] →
    joinCh '/' res = [] ∨ (joinCh '/' res).getLast? = some '/' := by
  intro res
  induction res with
  | nil => intro h; exact absurd h (by simp)
  | cons s rest ih =>
    intro h
    cases hr : rest with
    | nil =>
      subst hr
      simp only [List.getLast?_singleton, Option.some.injEq] at h
      subst h
      left
      rfl
    | cons r rs =>
      subst hr
      rw [List.getLast?_cons_cons] at h
      rcases ih h with hnil | hslash
      · right
        show (s ++ '/' :: joinCh '/' (r :: rs)).getLast? = some '/'
        rw [hnil]
        exact getLast?_append_keep s (by simp)
      · right
        show (s ++ '/' :: joinCh '/' (r :: rs)).getLast? = some '/'
        exact getLast?_append_keep s (getLast?_cons_keep '/' hslash)

theorem urlunsplitL_getLast (scheme netloc path : List Char)
    (h : path.getLast? = some '/') : (urlunsplitL scheme netloc path).getLast? = some '/' := by
  simp only [urlunsplitL]
  have hstep : ∀ u : List Char, u.getLast? = some '/' →
      (if scheme ≠ [] then scheme ++ ':' :: u else u).getLast? = some '/' := by
    intro u hu
    split
    · exact getLast?_append_keep _ (getLast?_cons_keep _ hu)
    · exact hu
  apply hstep
  split
  · refine getLast?_cons_keep _ (getLast?_cons_keep _ (getLast?_append_keep _ ?_))
    split
    · exact getLast?_cons_keep _ h
    · exact h
  · exact h

theorem splitSchemeL_none_of_no_colon (l : List Char) (h : ∀ x ∈ l, x ≠ ':') :
    splitSchemeL l = none := by
  have hd : l.dropWhile (fun c => c ≠ ':') = [] := by
    rw [List.dropWhile_eq_nil_iff]
    intro x hx
    simpa using h x hx
  simp only [splitSchemeL, hd]

theorem urlsplitL_scheme_of_none (l : List Char) (hs : splitSchemeL l = none) :
    (urlsplitL l).scheme = [] := by
  simp only [urlsplitL, hs]
  split <;> rfl

theorem startsWithL_two {a b : Char} {l : List Char} (h : startsWithL [a, b] l = true) :
    l = a :: b :: l.drop 2 := by
  cases l with
  | nil => simp [startsWithL] at h
  | cons x xs =>
    cases xs with
    | nil => simp [startsWithL] at h
    | cons y ys =>
      simp only [startsWithL, Bool.and_eq_true, decide_eq_true_eq] at h
      obtain ⟨h1, h2, _⟩ := h
      subst h1
      subst h2
      rfl

theorem dropWhile_slash_ne_nil {l : List Char} (h : l.getLast? = some '/') :
    l.dropWhile (fun c => c ≠ '/') ≠ [] := by
  intro hd
  rw [List.dropWhile_eq_nil_iff] at hd
  have hm : '/' ∈ l := List.mem_of_getLast?_eq_some h
  simpa using hd '/' hm

theorem dropWhile_slash_getLast {l : List Char} (h : l.getLast? = some '/') :
    (l.dropWhile (fun c => c ≠ '/')).getLast? = some '/' := by
  have hne := dropWhile_slash_ne_nil h
  have hsplit := List.takeWhile_append_dropWhile (fun c => c ≠ '/') (l := l)
  rw [← hsplit] at h
  exact getLast?_append_back h hne

theorem urlsplitL_no_scheme_path (l : List Char) (h : l.getLast? = some '/')
    (hs : splitSchemeL l = none) (hne2 : l ≠ ['/', '/']) :
    (urlsplitL l).path ≠ [] ∧ (urlsplitL l).path.getLast? = some '/' := by
  simp only [urlsplitL, hs]
  by_cases hsw : startsWithL ['/', '/'] l = true
  · rw [if_pos hsw]
    have hl := startsWithL_two hsw
    have hys : l.drop 2 ≠ [] := by
      intro hd
      rw [hd] at hl
      exact hne2 hl
    have hys_last : (l.drop 2).getLast? = some '/' := by
      rw [hl, List.getLast?_cons_cons, getLast?_cons_of_ne_nil _ hys] at h
      exact h
    exact ⟨dropWhile_slash_ne_nil hys_last, dropWhile_slash_getLast hys_last⟩
  · rw [if_neg hsw]
    refine ⟨?_, h⟩
    intro hd
    have hd2 : l = [] := hd
    rw [hd2] at h
    exact Option.noConfusion h

theorem matchSlash (j : List Char) (h : j = [] ∨ j.getLast? = some '/') :
    (match j with | [] => ['/'] | p => p).getLast? = some '/' := by
  cases j with
  | nil => rfl
  | cons a l =>
    rcases h with h | h
    · exact absurd h (by simp)
    · exact h

theorem urljoinL_getLast_slash (b u : List Char) (hu_last : u.getLast? = some '/')
    (hs : splitSchemeL u = none) (hne2 : u ≠ ['/', '/']) :
    (urljoinL b u).getLast? = some '/' := by
  have hu_ne : u ≠ [] := by
    intro hu
    rw [hu] at hu_last
    exact Option.noConfusion hu_last
  obtain ⟨hp_ne, hp_last⟩ := urlsplitL_no_scheme_path u hu_last hs hne2
  have hsch : (urlsplitL u).scheme = [] := urlsplitL_scheme_of_none u hs
  simp only [urljoinL]
  by_cases hb : b = []
  · rw [if_pos hb]
    exact hu_last
  · rw [if_neg hb, if_neg hu_ne, if_pos hsch, if_neg (fun hcon => hcon rfl)]
    by_cases hnl : (urlsplitL u).netloc ≠ []
    · rw [if_pos hnl]
      exact urlunsplitL_getLast _ _ _ hp_last
    · rw [if_neg hnl, if_neg hp_ne]
      have hsegs_last :
          (if (urlsplitL u).path.head? = some '/' then splitCh '/' (urlsplitL u).path
            else filterMiddle
              ((if (splitCh '/' (urlsplitL b).path).getLast? ≠ some [] then
                  (splitCh '/' (urlsplitL b).path).dropLast
                else splitCh '/' (urlsplitL b).path) ++
                splitCh '/' (urlsplitL u).path)).getLast? = some [] := by
        split
        · exact splitCh_getLast_sep '/' _ hp_last
        · rw [filterMiddle_getLast _ (by
            intro hcon
            rw [List.append_eq_nil] at hcon
            exact splitCh_ne_nil '/' (urlsplitL u).path hcon.2)]
          exact getLast?_append_keep _ (splitCh_getLast_sep '/' _ hp_last)
      rw [if_neg (fun hcon => by
        rcases hcon with hcon | hcon <;> rw [hsegs_last] at hcon <;> simp at hcon)]
      have hres := rdsLoop_getLast_nilseg _ [] hsegs_last
      exact urlunsplitL_getLast _ _ _ (matchSlash _ (joinCh_getLast_nilseg _ hres))

theorem nextUrl_slash (base name : String) (hc : (':' : Char) ∉ name.data)
    (hn : name ≠ "/") : is_directory (urljoin base (name ++ "/")) = true := by
  have hdata : (name ++ "/").data = name.data ++ ['/'] := String.data_append name "/"
  have hu_last : (name.data ++ ['/']).getLast? = some '/' := List.getLast?_concat _
  have hc2 : ∀ x ∈ name.data ++ ['/'], x ≠ ':' := by
    intro x hx
    rcases List.mem_append.mp hx with hx | hx
    · intro hcol
      rw [hcol] at hx
      exact hc hx
    · simp at hx
      rw [hx]
      decide
  have hs := splitSchemeL_none_of_no_colon _ hc2
  have hne2 : name.data ++ ['/'] ≠ ['/', '/'] := by
    intro hcon
    have h2 : name.data = ['/'] :=
      (List.append_inj' (show name.data ++ ['/'] = ['/'] ++ ['/'] from hcon) rfl).1
    apply hn
    have he : name = String.mk name.data := rfl
    rw [he, h2]
  simp only [is_directory, endsWithSlash, decide_eq_true_eq]
  show (String.mk (urljoinL base.data (name ++ "/").data)).data.getLast? = some '/'
  rw [hdata]
  exact urljoinL_getLast_slash base.data _ hu_last hs hne2

/-- Claim C4 counterexample: for a directory row with display name "sub"
but href "/other/sub/", the entry resolves to http://h/other/sub/ by
URL-join, yet the traversal recurses into http://h/a/sub/ (rebuilt from the
display name), as the skip notice for that different URL shows. -/
theorem c4_recursion_url_mismatch :
    print_directory_listing Fx.c4net 2 "http://h/a/" "" false =
      Except.ok ([Line.dirLine "" "sub", Line.skipNotice "    " "http://h/a/sub/"], [])
    ∧ urljoin "http://h/a/" "/other/sub/" = "http://h/other/sub/"
    ∧ ("http://h/a/sub/" : String) ≠ "http://h/other/sub/" :=
  ⟨rfl, rfl, by decide⟩

/-- Claim C4 amended: every entry URL is the href resolved against the page
URL (the classification and the stored CSV URL both use it), and the
traversal recurses into urljoin(page_url, name + "/"), rebuilt from the
display name rather than the href; the recursion URL still ends with a path
separator for every name without a colon other than "/". -/
theorem c4_url_resolution_amended :
    (∀ url name : String, (':' : Char) ∉ name.data → name ≠ "/" →
      is_directory (urljoin url (name ++ "/")) = true)
    ∧ (∀ (recurse : String → Except PyError (List Line × List CsvRow)) url indent name details
        lines csv, recurse (urljoin url (name ++ "/")) = Except.ok (lines, csv) →
        renderItems recurse url indent [⟨true, name, details⟩] =
          Except.ok (Line.dirLine indent name :: lines, csv))
    ∧ (∀ net url c0 c1 c2 c3 rest href q dt,
        c1.href = some href → c1.text ≠ "Parent Directory" →
        is_directory (urljoin url href) = false →
        get_file_info net (urljoin url href) = (SizeVal.mb q, dt) →
        processRow net url true ⟨c0 :: c1 :: c2 :: c3 :: rest⟩ =
          Except.ok ([⟨false, c1.text, "Size: " ++ fmt3f q ++ " MB, Last Modified: " ++ dt⟩],
            [⟨c1.text, urljoin url href, fmt3f q, dt⟩])) := by
  refine ⟨fun url name hc hn => nextUrl_slash url name hc hn, ?_, ?_⟩
  · intro recurse url indent name details lines csv hrec
    simp [renderItems, hrec]
  · intro net url c0 c1 c2 c3 rest href q dt hhref hpd hdir hinfo
    have hlen : 3 < (c0 :: c1 :: c2 :: c3 :: rest : List Cell).length := by
      simp
    unfold processRow
    rw [dif_pos hlen]
    simp only [List.get, hhref]
    rw [if_neg hpd]
    simp only [hdir, hinfo, Bool.not_false, if_true, formatSizeF3]

/-- Witness for the amended claim C4 at a concrete recursion URL. -/
theorem c4_url_resolution_amended_witness :
    is_directory (urljoin "http://h/a/" ("sub" ++ "/")) = true :=
  c4_url_resolution_amended.1 "http://h/a/" "sub" (by decide) (by decide)
